import Mathlib

/-!
Verification development for the `resample_lungs` preprocessing step
(`src/dsb3/steps/resample_lungs.py`): loading CT scans, resampling them to a
uniform spacing, normalizing Hounsfield-unit intensities, and aggregating
per-slice lung-segmentation contours into a single crop box.

Numeric conventions of the embedding:
* machine floats are modelled by `ℚ`;
* `np.round` is modelled by `np_round` (round half to even, numpy semantics);
* Python `int()` is modelled by `pyInt` (truncation toward zero);
* `int16` arrays are modelled by `List ℤ` whose arithmetic wraps via
  `int16_wrap` (two's-complement, 16 bits), matching numpy int16 arithmetic
  when the scalar operands themselves fit in int16.
-/

namespace ResampleLungs

/-- numpy rounding: round half to even (`np.round` on a scalar). -/
def np_round (q : ℚ) : ℤ :=
  if q - ⌊q⌋ < 1/2 then ⌊q⌋
  else if 1/2 < q - ⌊q⌋ then ⌊q⌋ + 1
  else if ⌊q⌋ % 2 = 0 then ⌊q⌋ else ⌊q⌋ + 1

/-- Python `int()` applied to a float: truncation toward zero. -/
def pyInt (q : ℚ) : ℤ :=
  if 0 ≤ q then ⌊q⌋ else -⌊-q⌋

/-- Two's-complement wrap-around of numpy `int16` arithmetic. -/
def int16_wrap (z : ℤ) : ℤ :=
  (z + 32768) % 65536 - 32768

/-! ### Resampler: `resize_and_interpolate_array` (lines 158-162), shape level

`new_shape = np.round(img_array.shape * old_spacing / new_spacing)` and the
zoom factor is `new_shape / img_array.shape`, so the interpolated array has
exactly the rounded shape.  We model the shape computation per axis. -/

/-- One axis of `resize_and_interpolate_array`: the output extent is the
rounded target shape `round(old_shape * old_spacing / new_spacing)`. -/
def resize_axis_shape (s : ℕ) (old_spacing new_spacing : ℚ) : ℕ :=
  (np_round ((s : ℚ) * old_spacing / new_spacing)).toNat

/-- `resize_and_interpolate_array` at shape level on a (z, y, x) shape. -/
def resize_and_interpolate_shape (shape : ℕ × ℕ × ℕ)
    (old_spacing new_spacing : ℚ × ℚ × ℚ) : ℕ × ℕ × ℕ :=
  (resize_axis_shape shape.1 old_spacing.1 new_spacing.1,
   resize_axis_shape shape.2.1 old_spacing.2.1 new_spacing.2.1,
   resize_axis_shape shape.2.2 old_spacing.2.2 new_spacing.2.2)

/-- Resampling from spacing `a` to spacing `b` and then back from `b` to `a`,
at shape level (the round-trip of the spec). -/
def resample_roundtrip_shape (shape : ℕ × ℕ × ℕ) (a b : ℚ × ℚ × ℚ) : ℕ × ℕ × ℕ :=
  resize_and_interpolate_shape (resize_and_interpolate_shape shape a b) b a

/-! ### IntensityNormalizer (lines 243-266) -/

/-- `clip_HU_range_int16` (lines 251-255): subtract the lower tissue bound in
int16 arithmetic, clamp above at `hi - lo`, clamp below at `0`, and cast the
result back to int16 (`astype(np.int16)`). -/
def clip_HU_range_int16 (img_array : List ℤ) (HU_lo HU_hi : ℤ) : List ℤ :=
  let a1 := img_array.map (fun v => int16_wrap (v - HU_lo))
  let a2 := a1.map (fun v => if v > HU_hi - HU_lo then HU_hi - HU_lo else v)
  let a3 := a2.map (fun v => if v < 0 then 0 else v)
  a3.map int16_wrap

/-- `normalize_HU_range_float` (lines 257-261): `(v - lo) / (hi - lo)`,
clamp above at `1`, then clamp below at `0`. -/
def normalize_HU_range_float (img_array : List ℚ) (HU_lo HU_hi : ℚ) : List ℚ :=
  let a1 := img_array.map (fun v => (v - HU_lo) / (HU_hi - HU_lo))
  let a2 := a1.map (fun v => if v > 1 then 1 else v)
  a2.map (fun v => if v < 0 then 0 else v)

/-- `zero_center` (lines 263-266): subtract the fixed empirical mean `0.25`. -/
def zero_center (img_array : List ℚ) : List ℚ :=
  img_array.map (fun v => v - 0.25)

/-- A numpy array tagged with its dtype, as far as `clip_HU_range` inspects it. -/
inductive NpArray
  | int16 (data : List ℤ)
  | float32 (data : List ℚ)
  | otherDtype (data : List ℚ)
  deriving DecidableEq

/-- `clip_HU_range` (lines 243-249): dispatch on the array dtype; any dtype
other than int16 or float32 raises `ValueError`. -/
def clip_HU_range (img_array : NpArray) (HU_tissue_range : ℤ × ℤ) :
    Except String NpArray :=
  match img_array with
  | .int16 d =>
      .ok (.int16 (clip_HU_range_int16 d HU_tissue_range.1 HU_tissue_range.2))
  | .float32 d =>
      .ok (.float32 (zero_center (normalize_HU_range_float d
        (HU_tissue_range.1 : ℚ) (HU_tissue_range.2 : ℚ))))
  | .otherDtype _ => .error "Array has wrong data type."

/-! ### VolumeLoader: pixel-spacing repair in `load_scan` (lines 212-220)

A DICOM `PixelSpacing` entry is a decimal value that can be an ordinary
number, a float NaN, or (corrupt metadata) a string.  The repair loop walks
the slices in order; `math.isnan` on a string raises `TypeError`, and the
`spacings` list aliases the live `PixelSpacing` objects, so a repaired value
is visible to the cleaning pass of later slices.  `np.bincount` converts its
float inputs to integer bins by truncation and `np.argmax` returns the first
index attaining the maximum. -/

/-- A per-slice pixel-spacing value as read from DICOM metadata. -/
inductive DSVal
  | num (q : ℚ)
  | nan
  | strVal (s : String)
  deriving DecidableEq

/-- The validity test of line 216:
`math.isnan(v) or v < 0.1 or v > 5 or isinstance(v, str)`.
`math.isnan` raises `TypeError` when handed a string, so the string case is
an exception, not a `True`. -/
def spacing_invalid : DSVal → Except String Bool
  | .nan => .ok true
  | .strVal _ => .error "TypeError: must be real number"
  | .num q => .ok (if q < 1/10 ∨ 5 < q then true else false)

/-- The cleaning comprehension of line 218: keep the numeric values inside
`[0.1, 5]`; the `math.isnan` test inside the comprehension raises on a
string element. -/
def clean_spacings : List DSVal → Except String (List ℚ)
  | [] => .ok []
  | .strVal _ :: _ => .error "TypeError: must be real number"
  | .nan :: rest => clean_spacings rest
  | .num q :: rest => do
      let r ← clean_spacings rest
      if q < 1/10 ∨ 5 < q then pure r else pure (q :: r)

/-- `np.argmax`: first index of the maximal entry. -/
def np_argmax (l : List ℕ) : ℕ :=
  l.indexOf (l.foldr max 0)

/-- `np.argmax(np.bincount(cleaned_spacings))` (line 220): truncate each
float to its integer bin, count occurrences of `0 .. max`, and take the first
bin with the maximal count.  `np.argmax` raises on an empty sequence. -/
def mode_by_bincount (cleaned : List ℚ) : Except String ℕ :=
  if cleaned = [] then .error "ValueError: argmax of an empty sequence"
  else
    let bins : List ℕ := cleaned.map (fun q => (⌊q⌋).toNat)
    let m := bins.foldr max 0
    let counts := (List.range (m + 1)).map (fun i => bins.count i)
    .ok (np_argmax counts)

/-- One iteration of the repair loop (lines 216-220) at slice position `j`
for one in-plane axis: if the value is invalid, recompute the cleaned list
from the current (aliased) state and overwrite position `j` with the
bincount-argmax mode. -/
def repair_step (spacings : List DSVal) (j : ℕ) : Except String (List DSVal) := do
  let bad ← spacing_invalid (spacings.getD j .nan)
  if bad then
    let cleaned ← clean_spacings spacings
    let m ← mode_by_bincount cleaned
    pure (spacings.set j (.num (m : ℚ)))
  else
    pure spacings

/-- The whole repair loop of `load_scan` for one in-plane axis: every slice
position is visited in order, mutating the shared spacing list. -/
def repair_axis (spacings : List DSVal) : Except String (List DSVal) :=
  (List.range spacings.length).foldlM repair_step spacings

/-! ### VolumeLoader: acquisition selection in `load_scan` (lines 187-206)

Slices are represented by their acquisition numbers.  `np.unique` returns the
sorted distinct values together with their multiplicities;
`np.argwhere(counts == np.amax(counts))[-1][0]` is the last index attaining
the maximal count, i.e. (the list being sorted ascending) the largest
identifier among those tied at the maximal count. -/

/-- Insert into a sorted duplicate-free list, keeping it sorted and
duplicate-free. -/
def insertUnique (x : ℤ) : List ℤ → List ℤ
  | [] => [x]
  | y :: ys =>
      if x < y then x :: y :: ys
      else if x = y then y :: ys
      else y :: insertUnique x ys

/-- `np.unique`: the sorted list of distinct values. -/
def npUnique (l : List ℤ) : List ℤ :=
  l.foldr insertUnique []

/-- The `return_counts=True` component of `np.unique`: the multiplicity of
each distinct value, in the sorted order of `npUnique`. -/
def npCounts (l : List ℤ) : List ℕ :=
  (npUnique l).map (fun u => l.count u)

/-- Line 195: `unique_ac_nums[np.argwhere(counts == np.amax(counts))[-1][0]]`,
the unique value at the last index whose count equals the maximal count. -/
def selected_acquisition (ac_nums : List ℤ) : ℤ :=
  let uniques := npUnique ac_nums
  let counts := npCounts ac_nums
  let m := counts.foldr max 0
  ((((uniques.zip counts).filter (fun p => p.2 == m)).getLast?).map Prod.fst).getD 0

/-- The diagnostic record attached to the patient (lines 198-204). -/
inductive AcqException
  | multiple (uniques : List ℤ) (counts : List ℕ) (selected : ℤ)
  | noAcquisitionNumber
  deriving DecidableEq

/-- The acquisition-selection part of `load_scan` (lines 187-206): with more
than one distinct acquisition number, keep exactly the slices carrying the
selected one and record the diagnostic; with none (no slices), record the
absence; otherwise keep everything with no diagnostic. -/
def load_scan_select (ac_nums : List ℤ) : List ℤ × Option AcqException :=
  let uniques := npUnique ac_nums
  if 1 < uniques.length then
    let sel := selected_acquisition ac_nums
    (ac_nums.filter (fun s => s == sel),
     some (.multiple uniques (npCounts ac_nums) sel))
  else if uniques.length = 0 then
    (ac_nums, some .noAcquisitionNumber)
  else
    (ac_nums, none)

/-! ### BoundingBoxAggregator: `get_crop_idx_yx` (lines 268-298) and the
cross-slice aggregation in `process_junk` (lines 120-132)

A contour is what `cv2.findContours` returns for one connected component:
its point list (each point an `(x, y)` pair) together with the area
`cv2.contourArea` reports for it. -/

/-- `min` over a nonempty integer list (Python `min`); `0` on the empty list,
which the call sites guard against. -/
def listMin : List ℤ → ℤ
  | [] => 0
  | a :: l => l.foldl min a

/-- `max` over a nonempty integer list (Python `max`); `0` on the empty list,
which the call sites guard against. -/
def listMax : List ℤ → ℤ
  | [] => 0
  | a :: l => l.foldl max a

/-- One external contour of the thresholded prediction mask. -/
structure Contour where
  area : ℚ
  pts : List (ℤ × ℤ)
  deriving DecidableEq

/-- `get_crop_idx_yx` (lines 268-298): drop contours with area `< 3` or fewer
than `3` points; collect the per-contour extrema (`cnt[:, 0, 1]` is y,
`cnt[:, 0, 0]` is x); if all four extrema lists are non-empty, clamp the
union rectangle below at `0` and above at the working-resolution crop bounds
and rescale it to native resolution with Python `int()` truncation; otherwise
return the empty list. -/
def get_crop_idx_yx (contours : List Contour) (crop_coords : ℤ × ℤ)
    (invers_scale_y invers_scale_x : ℚ) : List ℤ :=
  let kept := contours.filter
    (fun c => if c.area < 3 then false else if c.pts.length < 3 then false else true)
  let min_y := kept.map (fun c => listMin (c.pts.map Prod.snd))
  let max_y := kept.map (fun c => listMax (c.pts.map Prod.snd))
  let min_x := kept.map (fun c => listMin (c.pts.map Prod.fst))
  let max_x := kept.map (fun c => listMax (c.pts.map Prod.fst))
  if min_y ≠ [] ∧ min_x ≠ [] ∧ max_y ≠ [] ∧ max_x ≠ [] then
    let a := max 0 (listMin min_y)
    let b := min (listMax max_y) crop_coords.1
    let c := max 0 (listMin min_x)
    let d := min (listMax max_x) crop_coords.2
    [pyInt ((a : ℚ) * invers_scale_y), pyInt ((b : ℚ) * invers_scale_y),
     pyInt ((c : ℚ) * invers_scale_x), pyInt ((d : ℚ) * invers_scale_x)]
  else
    []

/-- Line 120: `[[yx_coords[x] for yx_coords in crop_coords_z_list_yx_px] for x
in range(4)]`.  The entries of `crop_coords_z_list_yx_px` are non-empty
results of `get_crop_idx_yx`, hence 4-lists, so the default of `getD` is
never reached. -/
def layers_coords (crop_coords_z_list_yx_px : List (List ℤ)) : List (List ℤ) :=
  (List.range 4).map (fun x => crop_coords_z_list_yx_px.map (fun yx => yx.getD x 0))

/-- Lines 120-128 of `process_junk`: aggregate the per-slice crop rectangles
into the global bounding box.  The boolean component records whether the
no-lung-wings warning was emitted.  `shape0`, `shape1`, `shape2` are
`img_array_zyx.shape`, i.e. (depth, rows, cols); the fallback branch of line
128 reads `shape[0]` and `shape[1]`. -/
def bound_box_coords_yx_px (crop_coords_z_list_yx_px : List (List ℤ))
    (buffer_y buffer_x : ℤ) (shape0 shape1 shape2 : ℤ) : List ℤ × Bool :=
  let layers := layers_coords crop_coords_z_list_yx_px
  if layers.all (fun lc => decide (0 < lc.length)) then
    ([max 0 (listMin (layers.getD 0 []) - buffer_y),
      min shape1 (listMax (layers.getD 1 []) + buffer_y),
      max 0 (listMin (layers.getD 2 []) - buffer_x),
      min shape2 (listMax (layers.getD 3 []) + buffer_x)], false)
  else
    ([0, shape0, 0, shape1], true)

/-! ### `process_patient` (lines 141-156) and `run` (lines 16-68), control
flow level -/

/-- `process_patient` (lines 141-156) at shape level.  Line 148 executes
`array = array.astype(data_type)` whenever `data_type != 'int16'`; the name
`array` is never bound anywhere in the module, so Python raises `NameError`
there.  On the int16 path, the scan is resampled and the provenance record
(resampled shape, resampled spacing, raw shape) is returned. -/
def process_patient (data_type : String) (old_shape : ℕ × ℕ × ℕ)
    (old_spacing new_spacing : ℚ × ℚ × ℚ) :
    Except String ((ℕ × ℕ × ℕ) × (ℚ × ℚ × ℚ) × (ℕ × ℕ × ℕ)) :=
  if data_type ≠ "int16" then
    .error "NameError: name array is not defined"
  else
    .ok (resize_and_interpolate_shape old_shape old_spacing new_spacing,
         new_spacing, old_shape)

/-- The externally visible actions of `run`, in order. -/
inductive RunEvent
  | loadNetwork
  | processJunk (idx : ℕ)
  | closeNetwork
  deriving DecidableEq

/-- `run` (lines 48-68) at control-flow level: validate `data_type` (line 49)
and the checkpoint directory (line 51) before anything else; only then load
the segmentation network, process every junk, and close the network. -/
def run (data_type : String) (checkpoint_dir_exists : Bool) (n_junks : ℕ) :
    List RunEvent × Except String Unit :=
  if data_type ∉ (["float32", "int16"] : List String) then
    ([], .error "Invalid data_type. Use int16 or float32.")
  else if ¬checkpoint_dir_exists then
    ([], .error "checkpoint_dir does not exist.")
  else
    ([RunEvent.loadNetwork] ++ (List.range n_junks).map RunEvent.processJunk
      ++ [RunEvent.closeNetwork], .ok ())

/-! ### `process_junk` (lines 70-139), event-trace level -/

/-- The externally visible actions of `process_junk`, in order. -/
inductive JunkEvent
  | loadConfig (patient : String)
  | clipHU (patient : String)
  | segmentAndCrop (patient : String)
  | saveArray (patient : String)
  | saveJson (mode : Char)
  deriving DecidableEq

/-- The per-patient body of the loop at lines 85-138: read the model config,
record the histogram and clip the HU range, segment the slices and derive the
crop box, and persist the cropped array. -/
def per_patient_events (patient : String) : List JunkEvent :=
  [.loadConfig patient, .clipHU patient, .segmentAndCrop patient,
   .saveArray patient]

/-- `process_junk` as an event trace: the per-patient loop (lines 85-138)
followed by the single metadata flush of line 139, with mode `'w'` on the
first junk and `'a'` afterwards. -/
def process_junk_events (junk_cnt : ℕ) (patients : List String) : List JunkEvent :=
  (patients.map per_patient_events).flatten
    ++ [.saveJson (if junk_cnt = 0 then 'w' else 'a')]

/-- Whether a `process_junk` event is the population-level metadata flush. -/
def isSaveJson : JunkEvent → Bool
  | .saveJson _ => true
  | _ => false

instance {ε α : Type} [DecidableEq ε] [DecidableEq α] : DecidableEq (Except ε α) := fun x y =>
  match x, y with
  | .ok a, .ok b => if h : a = b then .isTrue (by rw [h]) else .isFalse (by simp [h])
  | .error e, .error f => if h : e = f then .isTrue (by rw [h]) else .isFalse (by simp [h])
  | .ok _, .error _ => .isFalse (by simp)
  | .error _, .ok _ => .isFalse (by simp)

/-! ## Evaluation lemmas for the numeric helpers -/

theorem np_round_intCast (n : ℤ) : np_round (n : ℚ) = n := by
  unfold np_round
  rw [Int.floor_intCast]
  norm_num

theorem np_round_natCast (n : ℕ) : np_round (n : ℚ) = n := by
  have h := np_round_intCast (n : ℤ)
  rw [Int.cast_natCast] at h
  exact h

theorem resize_axis_shape_eval (s k : ℕ) (a b : ℚ) (h : (s : ℚ) * a / b = (k : ℚ)) :
    resize_axis_shape s a b = k := by
  unfold resize_axis_shape
  rw [h, np_round_natCast, Int.toNat_natCast]

theorem pyInt_nonneg {q : ℚ} (h : 0 ≤ q) : 0 ≤ pyInt q := by
  unfold pyInt
  rw [if_pos h]
  exact Int.floor_nonneg.mpr h

theorem int16_wrap_bounds (z : ℤ) : -32768 ≤ int16_wrap z ∧ int16_wrap z ≤ 32767 := by
  unfold int16_wrap
  omega

theorem int16_wrap_eq_self {z : ℤ} (h0 : 0 ≤ z) (h1 : z ≤ 32767) : int16_wrap z = z := by
  unfold int16_wrap
  omega

/-! ## C1: fallback crop box when no contour is found -/

/-- C1.  The claim says that with no qualifying contour on any slice the crop
box is the full native in-plane extent `(0, n_rows, 0, n_cols)` together with
a warning.  The code does emit the warning, but line 128 builds the box from
`shape[0]` and `shape[1]` — depth and rows — instead of `shape[1]` and
`shape[2]`: on the volume shape `(depth, rows, cols) = (5, 10, 20)` the box
is `(0, 5, 0, 10)`, not the in-plane extent `(0, 10, 0, 20)`. -/
theorem C1_fallback_box_uses_depth_axis :
    bound_box_coords_yx_px [] 5 5 5 10 20 = ([0, 5, 0, 10], true) ∧
    ([0, 5, 0, 10] : List ℤ) ≠ [0, 10, 0, 20] := by
  decide

/-! ## C2: the float32 storage path of `process_patient` -/

/-- C2.  The claim says a `float32` configuration completes `process_patient`
without error.  Line 148 is `array = array.astype(data_type)` and the name
`array` is unbound, so every `data_type` other than `'int16'` raises
`NameError`; the `int16` path completes and resamples the shape
(10, 100, 100) at spacing (2, 1, 1) to (20, 100, 100) at (1, 1, 1). -/
theorem C2_float32_raises_name_error :
    process_patient "float32" (10, 100, 100) (2, 1, 1) (1, 1, 1)
        = .error "NameError: name array is not defined" ∧
    process_patient "int16" (10, 100, 100) (2, 1, 1) (1, 1, 1)
        = .ok ((20, 100, 100), (1, 1, 1), (10, 100, 100)) := by
  constructor
  · rfl
  · have h1 : resize_axis_shape 10 2 1 = 20 := resize_axis_shape_eval 10 20 2 1 (by norm_num)
    have h2 : resize_axis_shape 100 1 1 = 100 := resize_axis_shape_eval 100 100 1 1 (by norm_num)
    simp [process_patient, resize_and_interpolate_shape, h1, h2]

/-! ## C7: crop-box aggregation when contours were found -/

theorem layers_coords_eq (cl : List (List ℤ)) :
    layers_coords cl
      = [cl.map (fun yx => yx.getD 0 0), cl.map (fun yx => yx.getD 1 0),
         cl.map (fun yx => yx.getD 2 0), cl.map (fun yx => yx.getD 3 0)] := rfl

/-- C7.  Whenever the list of per-slice crop rectangles is non-empty (all
four per-axis extrema lists are non-empty), the aggregated bounding box is
`(min min-y − buffer_y, max max-y + buffer_y, min min-x − buffer_x,
max max-x + buffer_x)` with the lower bounds clamped at `0` and the upper
bounds clamped at the native in-plane shape, and no warning is emitted. -/
theorem C7_bound_box_aggregation (crop_list : List (List ℤ)) (buffer_y buffer_x : ℤ)
    (shape0 shape1 shape2 : ℤ) (hne : crop_list ≠ [])
    (_h4 : ∀ yx ∈ crop_list, yx.length = 4) :
    bound_box_coords_yx_px crop_list buffer_y buffer_x shape0 shape1 shape2
      = ([max 0 (listMin (crop_list.map (fun yx => yx.getD 0 0)) - buffer_y),
          min shape1 (listMax (crop_list.map (fun yx => yx.getD 1 0)) + buffer_y),
          max 0 (listMin (crop_list.map (fun yx => yx.getD 2 0)) - buffer_x),
          min shape2 (listMax (crop_list.map (fun yx => yx.getD 3 0)) + buffer_x)], false) := by
  have hpos : 0 < crop_list.length := List.length_pos.mpr hne
  rw [bound_box_coords_yx_px, layers_coords_eq]
  simp [List.all_cons, hpos]

/-- Witness for C7: the spec example.  Per-slice rectangles
`(10,50,10,50)` and `(20,60,20,60)` with buffer `5`, on a volume of in-plane
shape `100 × 100`, aggregate to `(5, 65, 5, 65)` without a warning. -/
theorem C7_bound_box_aggregation_witness :
    bound_box_coords_yx_px [[10, 50, 10, 50], [20, 60, 20, 60]] 5 5 30 100 100
      = ([5, 65, 5, 65], false) := by
  have h := C7_bound_box_aggregation [[10, 50, 10, 50], [20, 60, 20, 60]] 5 5 30 100 100
    (by decide) (by decide)
  rw [h]
  decide

/-! ## C8: configuration validation in `run` -/

/-- C8.  `run` raises a configuration error before loading the network or
processing a patient exactly when `data_type` is not one of
`int16`/`float32` or the checkpoint directory does not exist; with a valid
configuration no such error is raised, and on the error path no event at all
(in particular no network load) has happened. -/
theorem C8_run_fails_fast_iff_invalid_config (data_type : String)
    (checkpoint_dir_exists : Bool) (n_junks : ℕ) :
    ((∃ e, (ResampleLungs.run data_type checkpoint_dir_exists n_junks).2 = .error e) ↔
      data_type ∉ (["float32", "int16"] : List String) ∨ checkpoint_dir_exists = false) ∧
    ∀ e, (ResampleLungs.run data_type checkpoint_dir_exists n_junks).2 = .error e →
      (ResampleLungs.run data_type checkpoint_dir_exists n_junks).1 = [] := by
  by_cases h1 : data_type ∈ (["float32", "int16"] : List String) <;>
    cases checkpoint_dir_exists <;>
      simp [ResampleLungs.run, h1]

/-! ## C9: the per-junk metadata flush -/

theorem process_junk_events_cons (junk_cnt : ℕ) (p : String) (ps : List String) :
    process_junk_events junk_cnt (p :: ps)
      = per_patient_events p ++ process_junk_events junk_cnt ps := by
  simp [process_junk_events]

/-- C9.  In every junk trace, the population-level metadata flush happens
exactly once, with overwrite mode `'w'` on junk 0 and append mode `'a'`
afterwards; it is the final event of the junk, and every patient of the
junk has had its array persisted strictly before it. -/
theorem C9_metadata_flush_once_after_batch (junk_cnt : ℕ) (patients : List String) :
    ((process_junk_events junk_cnt patients).filter isSaveJson
        = [JunkEvent.saveJson (if junk_cnt = 0 then 'w' else 'a')]) ∧
    ((process_junk_events junk_cnt patients).getLast?
        = some (JunkEvent.saveJson (if junk_cnt = 0 then 'w' else 'a'))) ∧
    ∀ p ∈ patients,
      JunkEvent.saveArray p ∈ (process_junk_events junk_cnt patients).dropLast := by
  refine ⟨?_, ?_, ?_⟩
  · induction patients with
    | nil => simp [process_junk_events, isSaveJson]
    | cons p ps ih =>
        rw [process_junk_events_cons, List.filter_append, ih]
        simp [per_patient_events, isSaveJson]
  · induction patients with
    | nil => simp [process_junk_events]
    | cons p ps ih =>
        rw [process_junk_events_cons]
        simp [List.getLast?_append, ih]
  · induction patients with
    | nil => simp
    | cons p ps ih =>
        intro q hq
        rw [process_junk_events_cons,
            List.dropLast_append_of_ne_nil _
              (show process_junk_events junk_cnt ps ≠ [] by simp [process_junk_events])]
        rcases List.mem_cons.mp hq with h | h
        · subst h
          exact List.mem_append_left _ (by simp [per_patient_events])
        · exact List.mem_append_right _ (ih q h)

/-! ## C3: the resampling round-trip -/

theorem np_round_half_odd {q : ℚ} {n : ℤ} (hfloor : ⌊q⌋ = n) (hhalf : q - n = 1/2)
    (hodd : n % 2 = 1) : np_round q = n + 1 := by
  unfold np_round
  rw [hfloor, hhalf, if_neg (by norm_num), if_neg (by norm_num), if_neg (by omega)]

theorem resize_axis_roundtrip (s : ℕ) (a b : ℚ) (ha : 0 < a) (hb : 0 < b)
    (h : ∃ k : ℕ, (s : ℚ) * a / b = (k : ℚ)) :
    resize_axis_shape (resize_axis_shape s a b) b a = s := by
  obtain ⟨k, hk⟩ := h
  rw [resize_axis_shape_eval s k a b hk]
  apply resize_axis_shape_eval
  rw [← hk]
  field_simp

/-- C3 counterexample.  The round-trip claim fails on the shape `(3, 3, 3)`
with spacings `(1, 1, 1)` and `(2, 2, 2)`: the target shape is
`round(3 · 1/2) = 2` (numpy rounds the half to even), and the way back gives
`round(2 · 2/1) = 4 ≠ 3`. -/
theorem C3_roundtrip_counterexample :
    resample_roundtrip_shape (3, 3, 3) (1, 1, 1) (2, 2, 2) ≠ (3, 3, 3) := by
  have hfloor : ⌊(3 / 2 : ℚ)⌋ = 1 := by
    rw [Int.floor_eq_iff]
    constructor <;> norm_num
  have haxis : resize_axis_shape 3 1 2 = 2 := by
    unfold resize_axis_shape
    have h32 : ((3 : ℕ) : ℚ) * 1 / 2 = 3 / 2 := by push_cast; norm_num
    rw [h32, np_round_half_odd hfloor (by push_cast; norm_num) (by norm_num)]
    decide
  have hback : resize_axis_shape 2 2 1 = 4 := resize_axis_shape_eval 2 4 2 1 (by norm_num)
  have : resample_roundtrip_shape (3, 3, 3) (1, 1, 1) (2, 2, 2) = (4, 4, 4) := by
    simp [resample_roundtrip_shape, resize_and_interpolate_shape, haxis, hback]
  rw [this]
  decide

/-- C3, amended.  Resampling a shape from spacing `a` to spacing `b` and back
reproduces the shape exactly on every axis on which the target extent
`shape · a / b` is itself an integer (so the forward rounding is exact; the
resize factor is in any case derived from the rounded target shape).  In
general the round-trip is `round(round(s·a/b)·b/a)`, which can differ from
`s` — see the counterexample. -/
theorem C3_roundtrip_of_exact_ratio (shape : ℕ × ℕ × ℕ) (a b : ℚ × ℚ × ℚ)
    (ha1 : 0 < a.1) (ha21 : 0 < a.2.1) (ha22 : 0 < a.2.2)
    (hb1 : 0 < b.1) (hb21 : 0 < b.2.1) (hb22 : 0 < b.2.2)
    (h1 : ∃ k : ℕ, (shape.1 : ℚ) * a.1 / b.1 = (k : ℚ))
    (h2 : ∃ k : ℕ, (shape.2.1 : ℚ) * a.2.1 / b.2.1 = (k : ℚ))
    (h3 : ∃ k : ℕ, (shape.2.2 : ℚ) * a.2.2 / b.2.2 = (k : ℚ)) :
    resample_roundtrip_shape shape a b = shape := by
  obtain ⟨s1, s2, s3⟩ := shape
  obtain ⟨a1, a2, a3⟩ := a
  obtain ⟨b1, b2, b3⟩ := b
  simp only [resample_roundtrip_shape, resize_and_interpolate_shape] at *
  exact Prod.ext (resize_axis_roundtrip s1 a1 b1 ha1 hb1 h1)
    (Prod.ext (resize_axis_roundtrip s2 a2 b2 ha21 hb21 h2)
      (resize_axis_roundtrip s3 a3 b3 ha22 hb22 h3))

/-- Witness for C3 (amended): the spec's end-to-end example.  A `10×100×100`
volume at spacing `(2, 1, 1)` resampled to `(1, 1, 1)` has shape
`(20, 100, 100)`, and resampling back reproduces `(10, 100, 100)`. -/
theorem C3_roundtrip_of_exact_ratio_witness :
    resample_roundtrip_shape (10, 100, 100) (2, 1, 1) (1, 1, 1) = (10, 100, 100) :=
  C3_roundtrip_of_exact_ratio (10, 100, 100) (2, 1, 1) (1, 1, 1)
    (by norm_num) (by norm_num) (by norm_num) (by norm_num) (by norm_num) (by norm_num)
    ⟨20, by norm_num⟩ ⟨100, by norm_num⟩ ⟨100, by norm_num⟩

/-! ## C6: intensity-normalization bounds -/

/-- C6.  For every tissue range `lo < hi` (within the int16-representable
Hounsfield domain, which is what the int16 storage of the loader implies),
every element of the int16-normalized output lies in `[0, hi − lo]` — in
particular the input `-1200` under the range `[-1000, 400]` maps to `0` —
and every element of the float-normalized output, before zero-centering,
lies in `[0, 1]`. -/
theorem C6_normalized_output_bounds (img : List ℤ) (imgf : List ℚ) (lo hi : ℤ)
    (hlt : lo < hi) (_hlo : -32768 ≤ lo) (_hhi : hi ≤ 32767) :
    (∀ w ∈ clip_HU_range_int16 img lo hi, 0 ≤ w ∧ w ≤ hi - lo) ∧
    (∀ w ∈ normalize_HU_range_float imgf (lo : ℚ) (hi : ℚ), 0 ≤ w ∧ w ≤ 1) ∧
    clip_HU_range_int16 [-1200] (-1000) 400 = [0] := by
  refine ⟨?_, ?_, by decide⟩
  · intro w hw
    simp only [clip_HU_range_int16, List.map_map, List.mem_map, Function.comp] at hw
    obtain ⟨v, _hv, rfl⟩ := hw
    simp only [int16_wrap]
    split_ifs <;> refine ⟨?_, ?_⟩ <;> omega
  · intro w hw
    simp only [normalize_HU_range_float, List.map_map, List.mem_map, Function.comp] at hw
    obtain ⟨v, _hv, rfl⟩ := hw
    split_ifs with h1 h2 h3 <;> constructor <;> linarith

/-- Witness for C6: the tissue range `[-1000, 400]` on data containing
`-1200` (below the range) and `2000` (above it). -/
theorem C6_normalized_output_bounds_witness :
    ((-1000 : ℤ) < 400 ∧ (-32768 : ℤ) ≤ -1000 ∧ (400 : ℤ) ≤ 32767) ∧
    ((∀ w ∈ clip_HU_range_int16 [-1200, 0, 2000] (-1000) 400, 0 ≤ w ∧ w ≤ 400 - -1000) ∧
     (∀ w ∈ normalize_HU_range_float [(-1200 : ℚ), -300, 2000]
        ((-1000 : ℤ) : ℚ) ((400 : ℤ) : ℚ), 0 ≤ w ∧ w ≤ 1) ∧
     clip_HU_range_int16 [-1200] (-1000) 400 = [0]) :=
  ⟨⟨by decide, by decide, by decide⟩,
   C6_normalized_output_bounds [-1200, 0, 2000] [(-1200 : ℚ), -300, 2000] (-1000) 400
     (by decide) (by decide) (by decide)⟩

/-! ## C10: shape invariant of per-slice rectangle extraction -/

theorem get_crop_idx_yx_cases (contours : List Contour) (crop_coords : ℤ × ℤ)
    (iy ix : ℚ) :
    get_crop_idx_yx contours crop_coords iy ix = [] ∨
      (get_crop_idx_yx contours crop_coords iy ix).length = 4 := by
  simp only [get_crop_idx_yx]
  split
  · right; rfl
  · left; rfl

/-- C10.  `get_crop_idx_yx` returns either the empty list or a list of
exactly four integers whose first and third entries (`min_y`, `min_x`) are
non-negative; consequently every rectangle the aggregator collects is a
4-list, the four per-axis lists of `layers_coords` all have the same length
as the collected rectangle list, and the all-four-non-empty guard of line
121 is equivalent to the rectangle list being non-empty. -/
theorem C10_crop_idx_shape_invariant (contours : List Contour) (crop_coords : ℤ × ℤ)
    (iy ix : ℚ) (hiy : 0 ≤ iy) (hix : 0 ≤ ix) (preds : List (List Contour)) :
    (get_crop_idx_yx contours crop_coords iy ix = [] ∨
      ((get_crop_idx_yx contours crop_coords iy ix).length = 4 ∧
       0 ≤ (get_crop_idx_yx contours crop_coords iy ix).getD 0 0 ∧
       0 ≤ (get_crop_idx_yx contours crop_coords iy ix).getD 2 0)) ∧
    (∀ yx ∈ (preds.map (fun p => get_crop_idx_yx p crop_coords iy ix)).filter
        (fun yx => !yx.isEmpty), yx.length = 4) ∧
    (∀ lc ∈ layers_coords ((preds.map (fun p => get_crop_idx_yx p crop_coords iy ix)).filter
        (fun yx => !yx.isEmpty)),
      lc.length = ((preds.map (fun p => get_crop_idx_yx p crop_coords iy ix)).filter
        (fun yx => !yx.isEmpty)).length) ∧
    (((layers_coords ((preds.map (fun p => get_crop_idx_yx p crop_coords iy ix)).filter
          (fun yx => !yx.isEmpty))).all (fun lc => decide (0 < lc.length))) = true ↔
      (preds.map (fun p => get_crop_idx_yx p crop_coords iy ix)).filter
        (fun yx => !yx.isEmpty) ≠ []) := by
  refine ⟨?_, ?_, ?_, ?_⟩
  · simp only [get_crop_idx_yx]
    split
    · right
      refine ⟨rfl, ?_, ?_⟩ <;>
        exact pyInt_nonneg (mul_nonneg (by exact_mod_cast le_max_left 0 _) (by assumption))
    · left; rfl
  · intro yx hyx
    rw [List.mem_filter] at hyx
    obtain ⟨hmem, hne⟩ := hyx
    rw [List.mem_map] at hmem
    obtain ⟨p, _, rfl⟩ := hmem
    rcases get_crop_idx_yx_cases p crop_coords iy ix with h | h
    · rw [h] at hne; simp at hne
    · exact h
  · intro lc hlc
    rw [layers_coords_eq] at hlc
    simp only [List.mem_cons, List.mem_singleton] at hlc
    rcases hlc with rfl | rfl | rfl | rfl | h <;> first
      | exact List.length_map _ _
      | exact absurd h (List.not_mem_nil _)
  · rw [layers_coords_eq]
    simp [List.length_pos]

/-- Witness for C10: a single slice with one qualifying square contour of
area 10 and four boundary points, working-resolution bounds `(100, 100)` and
inverse scale `1` on both axes. -/
theorem C10_crop_idx_shape_invariant_witness :
    (get_crop_idx_yx [⟨10, [(0, 0), (5, 0), (5, 5), (0, 5)]⟩] (100, 100) 1 1 = [] ∨
      ((get_crop_idx_yx [⟨10, [(0, 0), (5, 0), (5, 5), (0, 5)]⟩] (100, 100) 1 1).length = 4 ∧
       0 ≤ (get_crop_idx_yx [⟨10, [(0, 0), (5, 0), (5, 5), (0, 5)]⟩] (100, 100) 1 1).getD 0 0 ∧
       0 ≤ (get_crop_idx_yx [⟨10, [(0, 0), (5, 0), (5, 5), (0, 5)]⟩] (100, 100) 1 1).getD 2 0)) ∧
    (∀ yx ∈ (([[⟨10, [(0, 0), (5, 0), (5, 5), (0, 5)]⟩]] : List (List Contour)).map
        (fun p => get_crop_idx_yx p (100, 100) 1 1)).filter
        (fun yx => !yx.isEmpty), yx.length = 4) ∧
    (∀ lc ∈ layers_coords ((([[⟨10, [(0, 0), (5, 0), (5, 5), (0, 5)]⟩]] : List (List Contour)).map
        (fun p => get_crop_idx_yx p (100, 100) 1 1)).filter
        (fun yx => !yx.isEmpty)),
      lc.length = ((([[⟨10, [(0, 0), (5, 0), (5, 5), (0, 5)]⟩]] : List (List Contour)).map
        (fun p => get_crop_idx_yx p (100, 100) 1 1)).filter
        (fun yx => !yx.isEmpty)).length) ∧
    (((layers_coords ((([[⟨10, [(0, 0), (5, 0), (5, 5), (0, 5)]⟩]] : List (List Contour)).map
          (fun p => get_crop_idx_yx p (100, 100) 1 1)).filter
          (fun yx => !yx.isEmpty))).all (fun lc => decide (0 < lc.length))) = true ↔
      (([[⟨10, [(0, 0), (5, 0), (5, 5), (0, 5)]⟩]] : List (List Contour)).map
        (fun p => get_crop_idx_yx p (100, 100) 1 1)).filter
        (fun yx => !yx.isEmpty) ≠ []) :=
  C10_crop_idx_shape_invariant [⟨10, [(0, 0), (5, 0), (5, 5), (0, 5)]⟩] (100, 100) 1 1
    (by norm_num) (by norm_num) [[⟨10, [(0, 0), (5, 0), (5, 5), (0, 5)]⟩]]

/-! ## C5: acquisition selection -/

theorem mem_insertUnique (x a : ℤ) (l : List ℤ) :
    a ∈ insertUnique x l ↔ a = x ∨ a ∈ l := by
  induction l with
  | nil => simp [insertUnique]
  | cons y ys ih =>
      unfold insertUnique
      split_ifs with h1 h2
      · simp only [List.mem_cons]
      · subst h2
        simp only [List.mem_cons]
        tauto
      · simp only [List.mem_cons, ih]
        tauto

theorem sorted_insertUnique (x : ℤ) {l : List ℤ} (h : l.Sorted (· < ·)) :
    (insertUnique x l).Sorted (· < ·) := by
  induction l with
  | nil => simp [insertUnique]
  | cons y ys ih =>
      rw [List.sorted_cons] at h
      obtain ⟨hy, hys⟩ := h
      unfold insertUnique
      split_ifs with h1 h2
      · rw [List.sorted_cons]
        refine ⟨?_, List.sorted_cons.mpr ⟨hy, hys⟩⟩
        intro b hb
        rcases List.mem_cons.mp hb with rfl | hb
        · exact h1
        · exact lt_trans h1 (hy b hb)
      · exact List.sorted_cons.mpr ⟨hy, hys⟩
      · rw [List.sorted_cons]
        refine ⟨?_, ih hys⟩
        intro b hb
        rcases (mem_insertUnique x b ys).mp hb with rfl | hb
        · omega
        · exact hy b hb

theorem npUnique_sorted (l : List ℤ) : (npUnique l).Sorted (· < ·) := by
  induction l with
  | nil => simp [npUnique]
  | cons x xs ih => exact sorted_insertUnique x ih

theorem mem_npUnique (a : ℤ) (l : List ℤ) : a ∈ npUnique l ↔ a ∈ l := by
  induction l with
  | nil => simp [npUnique]
  | cons x xs ih =>
      show a ∈ insertUnique x (npUnique xs) ↔ _
      rw [mem_insertUnique, ih]
      exact (List.mem_cons).symm

theorem le_foldr_max {a : ℕ} {l : List ℕ} (h : a ∈ l) : a ≤ l.foldr max 0 := by
  induction l with
  | nil => simp at h
  | cons x xs ih =>
      rcases List.mem_cons.mp h with rfl | h
      · exact le_max_left _ _
      · exact le_trans (ih h) (le_max_right _ _)

theorem foldr_max_mem (l : List ℕ) (h : l ≠ []) : l.foldr max 0 ∈ l := by
  induction l with
  | nil => exact absurd rfl h
  | cons x xs ih =>
      simp only [List.foldr_cons]
      rcases Nat.le_total (xs.foldr max 0) x with hle | hle
      · rw [max_eq_left hle]
        exact List.mem_cons_self x xs
      · rw [max_eq_right hle]
        cases xs with
        | nil =>
            simp only [List.foldr_nil] at hle ⊢
            simp only [List.mem_singleton]
            omega
        | cons y ys => exact List.mem_cons_of_mem _ (ih (by simp))

theorem sorted_lt_le_getLast :
    ∀ (l : List ℤ), l.Sorted (· < ·) → ∀ (hne : l ≠ []) (a : ℤ), a ∈ l → a ≤ l.getLast hne := by
  intro l
  induction l with
  | nil => intro _ h; exact absurd rfl h
  | cons x xs ih =>
      intro hs hne a ha
      rw [List.sorted_cons] at hs
      obtain ⟨hx, hxs⟩ := hs
      cases xs with
      | nil =>
          rw [List.mem_singleton] at ha
          subst ha
          rfl
      | cons y ys =>
          rw [List.getLast_cons (by simp)]
          rcases List.mem_cons.mp ha with rfl | ha
          · exact le_of_lt (hx _ (List.getLast_mem (by simp)))
          · exact ih hxs (by simp) a ha

theorem zip_self_map (l : List ℤ) (f : ℤ → ℕ) :
    l.zip (l.map f) = l.map (fun a => (a, f a)) := by
  induction l with
  | nil => rfl
  | cons x xs ih => simp [ih]

theorem selected_acquisition_spec (l : List ℤ) (hne : npUnique l ≠ []) :
    selected_acquisition l ∈ l ∧
    (∀ u ∈ l, l.count u ≤ l.count (selected_acquisition l)) ∧
    (∀ u ∈ l, l.count u = l.count (selected_acquisition l) → u ≤ selected_acquisition l) := by
  classical
  set m := (npCounts l).foldr max 0 with hm
  set F := (npUnique l).filter (fun a => l.count a == m) with hF
  have hzip : (npUnique l).zip (npCounts l)
      = (npUnique l).map (fun a => (a, l.count a)) := by
    rw [npCounts]
    exact zip_self_map _ _
  have hfilter : ((npUnique l).zip (npCounts l)).filter (fun p => p.2 == m)
      = F.map (fun a => (a, l.count a)) := by
    rw [hzip, List.filter_map]
    rfl
  have hFne : F ≠ [] := by
    have hcne : npCounts l ≠ [] := by
      rw [npCounts]
      simpa using hne
    have hmem : m ∈ npCounts l := by
      rw [hm]
      exact foldr_max_mem (npCounts l) hcne
    rw [npCounts, List.mem_map] at hmem
    obtain ⟨x, hx, hxm⟩ := hmem
    have : x ∈ F := by
      rw [hF, List.mem_filter]
      exact ⟨hx, by simp [hxm]⟩
    exact List.ne_nil_of_mem this
  have hsel : selected_acquisition l = F.getLast hFne := by
    rw [selected_acquisition]
    simp only [← hm, hfilter, List.getLast?_map,
      List.getLast?_eq_getLast _ hFne, Option.map_map]
    rfl
  have hselF : selected_acquisition l ∈ F := hsel ▸ List.getLast_mem hFne
  have hselU : selected_acquisition l ∈ npUnique l :=
    (List.mem_filter.mp hselF).1
  have hselcnt : l.count (selected_acquisition l) = m := by
    have := (List.mem_filter.mp hselF).2
    simpa using this
  refine ⟨(mem_npUnique _ l).mp hselU, ?_, ?_⟩
  · intro u hu
    rw [hselcnt]
    apply le_foldr_max
    rw [npCounts]
    exact List.mem_map.mpr ⟨u, (mem_npUnique u l).mpr hu, rfl⟩
  · intro u hu hcnt
    have huF : u ∈ F := by
      rw [hF, List.mem_filter]
      refine ⟨(mem_npUnique u l).mpr hu, ?_⟩
      simp [hcnt, hselcnt]
    have hFs : F.Sorted (· < ·) :=
      List.Pairwise.sublist (List.filter_sublist _) (npUnique_sorted l)
    rw [hsel]
    exact sorted_lt_le_getLast F hFs hFne u huF

/-- C5.  With more than one distinct acquisition number present, `load_scan`
keeps exactly the slices carrying the selected acquisition number, records
the diagnostic listing all identifiers, their counts and the selection, and
the selected identifier has maximal slice count, with ties in count broken
toward the numerically larger identifier (the selected identifier is ≥ every
identifier achieving the maximal count). -/
theorem C5_acquisition_selection (ac_nums : List ℤ)
    (h : 1 < (npUnique ac_nums).length) :
    (load_scan_select ac_nums).1
        = ac_nums.filter (fun s => s == selected_acquisition ac_nums) ∧
    (load_scan_select ac_nums).2
        = some (AcqException.multiple (npUnique ac_nums) (npCounts ac_nums)
            (selected_acquisition ac_nums)) ∧
    selected_acquisition ac_nums ∈ ac_nums ∧
    (∀ u ∈ ac_nums, ac_nums.count u ≤ ac_nums.count (selected_acquisition ac_nums)) ∧
    (∀ u ∈ ac_nums,
      ac_nums.count u = ac_nums.count (selected_acquisition ac_nums) →
        u ≤ selected_acquisition ac_nums) := by
  have hne : npUnique ac_nums ≠ [] := by
    intro he
    rw [he] at h
    simp at h
  obtain ⟨h1, h2, h3⟩ := selected_acquisition_spec ac_nums hne
  refine ⟨?_, ?_, h1, h2, h3⟩
  · simp [load_scan_select, h]
  · simp [load_scan_select, h]

/-- Witness for C5: the spec's tie example, slice counts `{1 : 2, 2 : 2}`.
The selection is deterministic and properties of the selected acquisition
number hold on the concrete directory `[1, 2, 2, 1]`. -/
theorem C5_acquisition_selection_witness :
    (load_scan_select [1, 2, 2, 1]).1
        = [(1 : ℤ), 2, 2, 1].filter (fun s => s == selected_acquisition [1, 2, 2, 1]) ∧
    (load_scan_select [1, 2, 2, 1]).2
        = some (AcqException.multiple (npUnique [1, 2, 2, 1]) (npCounts [1, 2, 2, 1])
            (selected_acquisition [1, 2, 2, 1])) ∧
    selected_acquisition [1, 2, 2, 1] ∈ [(1 : ℤ), 2, 2, 1] ∧
    (∀ u ∈ [(1 : ℤ), 2, 2, 1],
      [(1 : ℤ), 2, 2, 1].count u ≤ [(1 : ℤ), 2, 2, 1].count (selected_acquisition [1, 2, 2, 1])) ∧
    (∀ u ∈ [(1 : ℤ), 2, 2, 1],
      [(1 : ℤ), 2, 2, 1].count u = [(1 : ℤ), 2, 2, 1].count (selected_acquisition [1, 2, 2, 1]) →
        u ≤ selected_acquisition [1, 2, 2, 1]) :=
  C5_acquisition_selection [1, 2, 2, 1] (by decide)

/-! ## C4: pixel-spacing repair -/

theorem repair_step_of_valid {s : List DSVal} {i : ℕ}
    (h : spacing_invalid (s.getD i .nan) = .ok false) :
    repair_step s i = .ok s := by
  unfold repair_step
  rw [h]
  rfl

theorem foldlM_repair_noop {s : List DSVal} {idxs : List ℕ}
    (h : ∀ i ∈ idxs, repair_step s i = .ok s) :
    idxs.foldlM repair_step s = .ok s := by
  induction idxs with
  | nil => rfl
  | cons i t ih =>
      rw [List.foldlM_cons, h i (List.mem_cons_self i t)]
      show t.foldlM repair_step s = .ok s
      exact ih (fun j hj => h j (List.mem_cons_of_mem i hj))

theorem except_bind_ok {ε α β : Type} (a : α) (f : α → Except ε β) :
    (Except.ok a >>= f : Except ε β) = f a := rfl

theorem except_bind_error {ε α β : Type} (e : ε) (f : α → Except ε β) :
    (Except.error e >>= f : Except ε β) = Except.error e := rfl

theorem spacing_invalid_num_valid {q : ℚ} (h1 : ¬(q < 1/10)) (h2 : ¬(5 < q)) :
    spacing_invalid (.num q) = .ok false := by
  simp only [spacing_invalid]
  rw [if_neg (not_or.mpr ⟨h1, h2⟩)]

theorem clean_spacings_cons_num_valid {q : ℚ} (h1 : ¬(q < 1/10)) (h2 : ¬(5 < q))
    (rest : List DSVal) :
    clean_spacings (.num q :: rest) = (clean_spacings rest).map (fun r => q :: r) := by
  cases hrest : clean_spacings rest with
  | ok r =>
      simp only [clean_spacings, hrest, except_bind_ok]
      rw [if_neg (not_or.mpr ⟨h1, h2⟩)]
      rfl
  | error e =>
      simp only [clean_spacings, hrest, except_bind_error]
      rfl

theorem clean_spacings_cons_invalid {b : DSVal} (hb : spacing_invalid b = .ok true)
    (rest : List DSVal) :
    clean_spacings (b :: rest) = clean_spacings rest := by
  cases b with
  | nan => rfl
  | strVal s => simp [spacing_invalid] at hb
  | num q =>
      have hcond : q < 1/10 ∨ 5 < q := by
        simp only [spacing_invalid] at hb
        by_cases hc : q < 1/10 ∨ 5 < q
        · exact hc
        · rw [if_neg hc] at hb
          simp at hb
      cases hrest : clean_spacings rest with
      | ok r =>
          simp only [clean_spacings, hrest, except_bind_ok]
          rw [if_pos hcond]
          rfl
      | error e =>
          simp only [clean_spacings, hrest, except_bind_error]

theorem clean_spacings_replicate_valid {q : ℚ} (h1 : ¬(q < 1/10)) (h2 : ¬(5 < q))
    (n : ℕ) :
    clean_spacings (List.replicate n (.num q)) = .ok (List.replicate n q) := by
  induction n with
  | zero => rfl
  | succ m ih =>
      rw [List.replicate_succ, clean_spacings_cons_num_valid h1 h2, ih]
      rfl

theorem clean_spacings_replicate_append {q : ℚ} (h1 : ¬(q < 1/10)) (h2 : ¬(5 < q))
    (p : ℕ) {rest : List DSVal} {r : List ℚ} (hrest : clean_spacings rest = .ok r) :
    clean_spacings (List.replicate p (.num q) ++ rest) = .ok (List.replicate p q ++ r) := by
  induction p with
  | zero => simpa using hrest
  | succ m ih =>
      rw [List.replicate_succ, List.cons_append, clean_spacings_cons_num_valid h1 h2, ih]
      rfl

theorem foldr_max_replicate (n k : ℕ) (h : n ≠ 0) :
    (List.replicate n k).foldr max 0 = k := by
  induction n with
  | zero => exact absurd rfl h
  | succ m ih =>
      rw [List.replicate_succ, List.foldr_cons]
      cases Nat.eq_zero_or_pos m with
      | inl h0 =>
          subst h0
          simp
      | inr hpos =>
          rw [ih (by omega)]
          exact max_self k

theorem foldr_max_replicate_zero_append (j n : ℕ) :
    (List.replicate j 0 ++ [n]).foldr max 0 = n := by
  induction j with
  | zero => simp
  | succ m ih =>
      rw [List.replicate_succ, List.cons_append, List.foldr_cons, ih]
      simp

theorem indexOf_replicate_zero_append (j n : ℕ) (h : n ≠ 0) :
    (List.replicate j 0 ++ [n]).indexOf n = j := by
  induction j with
  | zero => simp [List.indexOf_cons_self]
  | succ m ih =>
      rw [List.replicate_succ, List.cons_append,
          List.indexOf_cons_ne _ (by omega : (0 : ℕ) ≠ n), ih]

theorem map_range_eq_replicate {K n : ℕ} :
    ∀ k, k ≤ K → (List.range k).map (fun i => if K == i then n else 0)
      = List.replicate k 0 := by
  intro k
  induction k with
  | zero => simp
  | succ m ih =>
      intro h
      rw [List.range_succ, List.map_append, ih (by omega)]
      have hne : K ≠ m := by omega
      simp [hne, List.replicate_succ']

theorem counts_range_replicate (k n : ℕ) :
    (List.range (k + 1)).map (fun i => if k == i then n else 0)
      = List.replicate k 0 ++ [n] := by
  rw [List.range_succ, List.map_append, map_range_eq_replicate k (le_refl k)]
  simp

theorem mode_by_bincount_replicate (n k : ℕ) (hn : n ≠ 0) :
    mode_by_bincount (List.replicate n ((k : ℕ) : ℚ)) = .ok k := by
  have hne : List.replicate n ((k : ℕ) : ℚ) ≠ [] := by simp [hn]
  simp only [mode_by_bincount, if_neg hne]
  have hbins : (List.replicate n ((k : ℕ) : ℚ)).map (fun q => (⌊q⌋).toNat)
      = List.replicate n k := by
    rw [List.map_replicate, Int.floor_natCast, Int.toNat_natCast]
  rw [hbins, foldr_max_replicate n k hn]
  simp only [List.count_replicate]
  rw [counts_range_replicate k n, np_argmax, foldr_max_replicate_zero_append,
      indexOf_replicate_zero_append k n hn]

theorem getD_replicate_append {x d : DSVal} {p i : ℕ} (l : List DSVal) (h : i < p) :
    (List.replicate p x ++ l).getD i d = x := by
  rw [List.getD_append _ _ _ _ (by simpa using h),
      List.getD_eq_getElem _ _ (by simpa using h)]
  exact List.getElem_replicate _ _

theorem getD_append_at_length (l1 : List DSVal) (b : DSVal) (l2 : List DSVal)
    (d : DSVal) :
    (l1 ++ b :: l2).getD l1.length d = b := by
  rw [List.getD_append_right _ _ _ _ (le_refl _), Nat.sub_self]
  rfl

theorem mem_scenario_result {v : ℚ} {p q' : ℕ} {e : DSVal}
    (he : e ∈ List.replicate p (DSVal.num v) ++ DSVal.num v :: List.replicate q' (DSVal.num v)) :
    e = .num v := by
  simp only [List.mem_append, List.mem_cons, List.mem_replicate] at he
  tauto

/-- C4, amended.  If exactly one slice carries an invalid in-plane spacing
value (float NaN or a numeric value outside `[0.1, 5]` mm — a string-typed
value instead makes the `math.isnan` check itself raise) and every other
slice carries the same valid integer-valued spacing `k` (with `1 ≤ k ≤ 5`),
then the repair loop replaces the invalid value with `k` — the mode of the
valid values, never `0` and never an average — and keeps the slice: the list
keeps its length and every other entry is untouched.  For non-integer valid
spacings the bincount mode truncates (see the counterexample). -/
theorem C4_pixel_spacing_repair_integer_mode (p q' k : ℕ) (b : DSVal)
    (hk1 : 1 ≤ k) (hk5 : k ≤ 5) (hb : spacing_invalid b = .ok true)
    (hpq : p + q' ≠ 0) :
    repair_axis (List.replicate p (DSVal.num ((k : ℕ) : ℚ))
        ++ b :: List.replicate q' (DSVal.num ((k : ℕ) : ℚ)))
      = .ok (List.replicate p (DSVal.num ((k : ℕ) : ℚ))
        ++ DSVal.num ((k : ℕ) : ℚ) :: List.replicate q' (DSVal.num ((k : ℕ) : ℚ))) := by
  have hv1 : ¬(((k : ℕ) : ℚ) < 1 / 10) := by
    push_neg
    have h1 : (1 : ℚ) ≤ (k : ℚ) := by exact_mod_cast hk1
    linarith
  have hv2 : ¬((5 : ℚ) < ((k : ℕ) : ℚ)) := by
    push_neg
    exact_mod_cast hk5
  set v : ℚ := ((k : ℕ) : ℚ) with hv
  set s := List.replicate p (DSVal.num v) ++ b :: List.replicate q' (DSVal.num v) with hs
  set s2 := List.replicate p (DSVal.num v) ++ DSVal.num v :: List.replicate q' (DSVal.num v)
    with hs2
  have hslen : s.length = p + (1 + q') := by
    rw [hs]
    simp
    omega
  have hs2len : s2.length = p + (1 + q') := by
    rw [hs2]
    simp
    omega
  have hstep : repair_step s p = .ok s2 := by
    have hgd : s.getD p .nan = b := by
      have h0 := getD_append_at_length (List.replicate p (DSVal.num v)) b
        (List.replicate q' (DSVal.num v)) .nan
      rwa [List.length_replicate] at h0
    have hclean : clean_spacings s = .ok (List.replicate (p + q') v) := by
      rw [hs, List.replicate_add]
      exact clean_spacings_replicate_append hv1 hv2 p
        (by rw [clean_spacings_cons_invalid hb]
            exact clean_spacings_replicate_valid hv1 hv2 q')
    have hmode : mode_by_bincount (List.replicate (p + q') v) = .ok k :=
      mode_by_bincount_replicate (p + q') k hpq
    unfold repair_step
    rw [hgd, hb]
    show (do
      let cleaned ← clean_spacings s
      let m ← mode_by_bincount cleaned
      pure (s.set p (.num (m : ℚ)))) = Except.ok s2
    rw [hclean]
    show (do
      let m ← mode_by_bincount (List.replicate (p + q') v)
      pure (s.set p (.num (m : ℚ)))) = Except.ok s2
    rw [hmode]
    show Except.ok (s.set p (.num ((k : ℕ) : ℚ))) = Except.ok s2
    congr 1
    rw [hs, hs2, List.set_append_right _ _ (by simp)]
    simp
  unfold repair_axis
  rw [hslen, List.range_add, List.foldlM_append]
  have hseg1 : (List.range p).foldlM repair_step s = .ok s := by
    apply foldlM_repair_noop
    intro i hi
    rw [List.mem_range] at hi
    apply repair_step_of_valid
    have hg : s.getD i .nan = .num v := by
      rw [hs]
      exact getD_replicate_append _ hi
    rw [hg]
    exact spacing_invalid_num_valid hv1 hv2
  rw [hseg1]
  show ((List.range (1 + q')).map (fun x => p + x)).foldlM repair_step s = .ok s2
  have hr : List.range (1 + q') = 0 :: (List.range q').map Nat.succ := by
    rw [Nat.add_comm]
    exact List.range_succ_eq_map q'
  rw [hr, List.map_cons, List.foldlM_cons, Nat.add_zero, hstep]
  show (((List.range q').map Nat.succ).map (fun x => p + x)).foldlM repair_step s2 = .ok s2
  apply foldlM_repair_noop
  intro i hi
  rw [List.map_map, List.mem_map] at hi
  obtain ⟨j, hj, rfl⟩ := hi
  rw [List.mem_range] at hj
  apply repair_step_of_valid
  have hlt : ((fun x => p + x) ∘ Nat.succ) j < s2.length := by
    rw [hs2len]
    simp only [Function.comp]
    omega
  have hg : s2.getD (((fun x => p + x) ∘ Nat.succ) j) .nan = .num v := by
    have hmem : s2.getD (((fun x => p + x) ∘ Nat.succ) j) .nan ∈ s2 := by
      rw [List.getD_eq_getElem _ _ hlt]
      exact List.getElem_mem _
    rw [hs2] at hmem
    exact mem_scenario_result hmem
  rw [hg]
  exact spacing_invalid_num_valid hv1 hv2

/-- C4 counterexample.  The claim promises the mode of the valid values for
every valid spacing `v`; with one NaN slice and two slices at `v = 2.5` mm
(valid: inside `[0.1, 5]`), `np.argmax(np.bincount(...))` bins the floats at
integer `2` and the NaN is replaced by `2`, not by the mode `2.5`. -/
theorem C4_repair_counterexample :
    repair_axis [DSVal.nan, DSVal.num (5/2), DSVal.num (5/2)]
      = .ok [DSVal.num 2, DSVal.num (5/2), DSVal.num (5/2)] ∧
    (2 : ℚ) ≠ 5/2 := by
  have hv1 : ¬((5/2 : ℚ) < 1/10) := by norm_num
  have hv2 : ¬((5 : ℚ) < 5/2) := by norm_num
  refine ⟨?_, by norm_num⟩
  have hfloor : ⌊(5/2 : ℚ)⌋ = 2 := by
    rw [Int.floor_eq_iff]
    constructor <;> norm_num
  have hclean : clean_spacings [DSVal.nan, DSVal.num (5/2), DSVal.num (5/2)]
      = .ok [5/2, 5/2] := by
    rw [clean_spacings_cons_invalid (show spacing_invalid DSVal.nan = Except.ok true from rfl),
        clean_spacings_cons_num_valid hv1 hv2,
        clean_spacings_cons_num_valid hv1 hv2]
    rfl
  have hmode : mode_by_bincount [(5/2 : ℚ), 5/2] = .ok 2 := by
    have hne : [(5/2 : ℚ), 5/2] ≠ [] := by simp
    simp only [mode_by_bincount, if_neg hne]
    have hbins : [(5/2 : ℚ), 5/2].map (fun q => (⌊q⌋).toNat) = [2, 2] := by
      simp [hfloor]
    rw [hbins]
    decide
  have hstep0 : repair_step [DSVal.nan, DSVal.num (5/2), DSVal.num (5/2)] 0
      = .ok [DSVal.num 2, DSVal.num (5/2), DSVal.num (5/2)] := by
    unfold repair_step
    show (do
      let cleaned ← clean_spacings [DSVal.nan, DSVal.num (5/2), DSVal.num (5/2)]
      let m ← mode_by_bincount cleaned
      pure ([DSVal.nan, DSVal.num (5/2), DSVal.num (5/2)].set 0 (.num (m : ℚ))))
      = Except.ok [DSVal.num 2, DSVal.num (5/2), DSVal.num (5/2)]
    rw [hclean]
    show (do
      let m ← mode_by_bincount [(5/2 : ℚ), 5/2]
      pure ([DSVal.nan, DSVal.num (5/2), DSVal.num (5/2)].set 0 (.num (m : ℚ))))
      = Except.ok [DSVal.num 2, DSVal.num (5/2), DSVal.num (5/2)]
    rw [hmode]
    show Except.ok ([DSVal.nan, DSVal.num (5/2), DSVal.num (5/2)].set 0 (.num ((2 : ℕ) : ℚ)))
      = Except.ok [DSVal.num 2, DSVal.num (5/2), DSVal.num (5/2)]
    simp
  have hvalid : spacing_invalid (DSVal.num (5/2)) = .ok false :=
    spacing_invalid_num_valid hv1 hv2
  have hstep1 : repair_step [DSVal.num 2, DSVal.num (5/2), DSVal.num (5/2)] 1
      = .ok [DSVal.num 2, DSVal.num (5/2), DSVal.num (5/2)] :=
    repair_step_of_valid hvalid
  have hstep2 : repair_step [DSVal.num 2, DSVal.num (5/2), DSVal.num (5/2)] 2
      = .ok [DSVal.num 2, DSVal.num (5/2), DSVal.num (5/2)] :=
    repair_step_of_valid hvalid
  unfold repair_axis
  show (List.range 3).foldlM repair_step [DSVal.nan, DSVal.num (5/2), DSVal.num (5/2)]
    = Except.ok [DSVal.num 2, DSVal.num (5/2), DSVal.num (5/2)]
  rw [show List.range 3 = [0, 1, 2] from rfl, List.foldlM_cons, hstep0]
  show [1, 2].foldlM repair_step [DSVal.num 2, DSVal.num (5/2), DSVal.num (5/2)]
    = Except.ok [DSVal.num 2, DSVal.num (5/2), DSVal.num (5/2)]
  rw [List.foldlM_cons, hstep1]
  show [2].foldlM repair_step [DSVal.num 2, DSVal.num (5/2), DSVal.num (5/2)]
    = Except.ok [DSVal.num 2, DSVal.num (5/2), DSVal.num (5/2)]
  rw [List.foldlM_cons, hstep2]
  rfl

/-- Witness for C4 (amended): a NaN slice surrounded by two slices of
spacing `1.0` is repaired to `1.0`, the mode. -/
theorem C4_pixel_spacing_repair_integer_mode_witness :
    ((1 : ℕ) ≤ 1 ∧ (1 : ℕ) ≤ 5 ∧ spacing_invalid DSVal.nan = Except.ok true ∧ 1 + 1 ≠ 0) ∧
    repair_axis (List.replicate 1 (DSVal.num ((1 : ℕ) : ℚ))
        ++ DSVal.nan :: List.replicate 1 (DSVal.num ((1 : ℕ) : ℚ)))
      = .ok (List.replicate 1 (DSVal.num ((1 : ℕ) : ℚ))
        ++ DSVal.num ((1 : ℕ) : ℚ) :: List.replicate 1 (DSVal.num ((1 : ℕ) : ℚ))) :=
  ⟨⟨le_refl 1, by norm_num, rfl, by norm_num⟩,
   C4_pixel_spacing_repair_integer_mode 1 1 1 DSVal.nan (le_refl 1) (by norm_num) rfl
     (by norm_num)⟩

end ResampleLungs
